import Mathlib

/-!
Verification development for the Echolet document-ingestion pipeline.

The definitions below are shallow embeddings of the Python sources:
  * `chunkLoop` / `chunk_text`       — `_chunk_text` in `server/services/upload_processor.py`
  * `storeLoop` / `store_embeddings` — `PGVectorStore.store_embeddings` (same file)
  * `upload_file`                    — `upload_file` in `server/rest_api/router_api.py`
    together with `validate_file_extension` from `server/validation/pydentic_model.py`
  * `process_file`                   — `process_file` in `server/services/upload_processor.py`
  * `utf8DecodeIgnore`               — `bytes.decode("utf-8", errors="ignore")` as used by
    `_extract_text_from_doc` (same file)

Python strings are modelled as `List Char`, byte strings as `List Nat`
(each element < 256), and Python `int` sizes/offsets as `Nat` (all the
quantities involved are non-negative in the situations covered here).
-/

namespace Echolet

/-! ### Chunker

`_chunk_text(text, chunk_size, overlap)`:

```python
if chunk_size <= 0:
    raise ValueError("chunk_size must be > 0")
chunks = []
start = 0
length = len(text)
while start < length:
    end = min(start + chunk_size, length)
    chunks.append(text[start:end])
    if end == length:
        break
    start = max(0, end - overlap)
return chunks
```

The `while` loop is embedded with an explicit fuel argument; `none` means
the fuel ran out before the loop finished (for the canonical fuel used by
`chunk_text` this only happens when the Python loop does not terminate, as
the stabilisation lemmas below show), and `chunk_text` also returns `none`
when `chunk_size <= 0` raises.  `max(0, end - overlap)` is exactly
truncated `Nat` subtraction `e - overlap`.
-/

def chunkLoop (text : List Char) (size overlap : Nat) : Nat → Nat → Option (List (List Char))
  | _start, 0 => none
  | start, fuel + 1 =>
    if start < text.length then
      let e := min (start + size) text.length
      let c := (text.drop start).take (e - start)
      if e = text.length then
        some [c]
      else
        match chunkLoop text size overlap (e - overlap) fuel with
        | none => none
        | some cs => some (c :: cs)
    else
      some []

def chunk_text (text : List Char) (size overlap : Nat) : Option (List (List Char)) :=
  if size = 0 then none
  else chunkLoop text size overlap 0 (text.length + 1)

/-- Concatenate a chunk list, first removing from every chunk other than
the first its leading `overlap` characters (the reconstruction operation
named by the spec's round-trip property). -/
def reassemble (overlap : Nat) : List (List Char) → List Char
  | [] => []
  | c :: cs => c ++ (cs.map (List.drop overlap)).flatten

/-! ### Vector Store Writer

`PGVectorStore.store_embeddings(chunks, embeddings)`:

```python
documents = []
expected_dimension = None
for i, (chunk, embedding) in enumerate(zip(chunks, embeddings)):
    if expected_dimension is None:
        expected_dimension = len(embedding)
    if len(embedding) != expected_dimension:
        raise ValueError(f"Warning: Skipping chunk {i} due to inconsistent embedding "
                         f"dimension. Expected {expected_dimension}, got {len(embedding)}.")
    embedding = [float(x) for x in embedding]
    doc = Document(page_content=chunk, metadata={...,"chunk_sequence": i})
    doc.id = str(uuid.uuid4())
    documents.append(doc)
if documents:
    added_ids = self.vector_store.add_documents(documents)
else:
    print("No documents to add.")
```

Embedding elements are kept generic in `α` (the claims below only concern
embedding *lengths*, so the per-element `float(x)` coercion is the
identity on the modelled data).  The randomly generated `doc.id` is
external nondeterminism and is not part of the modelled record.  The
`ValueError` (re-wrapped by the enclosing `except` into
`Exception("Error storing embeddings: ...")`, which preserves the index
and the two lengths in its message) is modelled structurally as
`StoreError.dimensionMismatch`.  `writeInvoked` records whether
`add_documents` was called, and `storedCount` the number of identifiers
it reports (one per submitted document).
-/

inductive StoreError where
  | dimensionMismatch (index expected got : Nat)
deriving DecidableEq

structure StoreDocument (α : Type) where
  content : List Char
  embedding : List α
  chunkSequence : Nat
deriving DecidableEq

def storeLoop {α : Type} (expected : Option Nat) (i : Nat) :
    List (List Char × List α) → Except StoreError (List (StoreDocument α))
  | [] => .ok []
  | (chunk, emb) :: rest =>
    let exp := expected.getD emb.length
    if emb.length ≠ exp then
      .error (.dimensionMismatch i exp emb.length)
    else
      match storeLoop (some exp) (i + 1) rest with
      | .error e => .error e
      | .ok docs => .ok (⟨chunk, emb, i⟩ :: docs)

structure StoreResult where
  error : Option StoreError
  writeInvoked : Bool
  storedCount : Nat
deriving DecidableEq

def store_embeddings {α : Type} (chunks : List (List Char)) (embeddings : List (List α)) :
    StoreResult :=
  match storeLoop none 0 (chunks.zip embeddings) with
  | .error e => { error := some e, writeInvoked := false, storedCount := 0 }
  | .ok docs =>
    if docs.isEmpty then { error := none, writeInvoked := false, storedCount := 0 }
    else { error := none, writeInvoked := true, storedCount := docs.length }

/-! ### Stream Intake Guard

`upload_file` in `server/rest_api/router_api.py` together with
`FileMeta.validate_file_extension` in `server/validation/pydentic_model.py`:

```python
ext = value.rsplit(".", 1)[-1].lower()
if ext not in ALLOWED_EXTENSIONS:
    raise ValueError(f"Unsupported file type '.{ext}'. Allowed types: {allowed}")
```

```python
try:
    FileMeta(filename=file.filename)       # raises -> HTTP 400, nothing touched disk
except ValidationError as e: ...
os.makedirs(UPLOAD_DIR, exist_ok=True)
file_path = os.path.join(UPLOAD_DIR, file.filename)
size = 0
try:
    with open(file_path, "wb") as f:        # file created here
        while chunk := await file.read(CHUNK_SIZE):
            size += len(chunk)
            if size > MAX_FILE_SIZE:
                raise HTTPException(400, f"File too large. Max allowed size is "
                                         f"{MAX_FILE_SIZE // (1024 * 1024)} MB")
            f.write(chunk)
except HTTPException:
    if os.path.exists(file_path): os.remove(file_path)   # cleanup partial file
    raise
...
except Exception:
    if 'file_path' in locals() and os.path.exists(file_path): os.remove(file_path)
    raise HTTPException(500, "Internal server error")
```

The inbound stream is modelled as the sequence of values produced by the
successive `file.read(CHUNK_SIZE)` calls: `StreamEvent.bytes c` is a read
returning the bytes `c` (the `while chunk := ...` loop stops at the first
empty read), and `StreamEvent.ioError` is a read or write failing with an
unexpected exception (handled by the outer `except Exception` branch,
which also removes the partial file).  `rsplit(".", 1)[-1]` is the suffix
after the last `'.'`, or the whole string when no `'.'` occurs — which is
exactly `(s.reverse.takeWhile (· != '.')).reverse`.  `ALLOWED_EXTENSIONS`,
`MAX_FILE_SIZE` (from `constant/file_constant.py`, consumed as opaque
configuration) are carried in `IntakeConfig`.
-/

inductive IntakeError where
  | invalidFileType (ext : List Char) (allowed : List (List Char))
  | fileTooLarge (maxMB : Nat)
  | internalError
deriving DecidableEq

inductive StreamEvent where
  | bytes (b : List Nat)
  | ioError
deriving DecidableEq

def extAfterLastDot (s : List Char) : List Char :=
  (s.reverse.takeWhile (fun c => c != '.')).reverse

def lowerExt (s : List Char) : List Char :=
  (extAfterLastDot s).map Char.toLower

def validate_file_extension (allowed : List (List Char)) (value : List Char) :
    Option IntakeError :=
  if lowerExt value ∈ allowed then none
  else some (.invalidFileType (lowerExt value) allowed)

structure IntakeConfig where
  allowedExtensions : List (List Char)
  maxFileSize : Nat

def intakeLoop (maxSize : Nat) (size : Nat) (written : List Nat) :
    List StreamEvent → Except IntakeError (Nat × List Nat)
  | [] => .ok (size, written)
  | .ioError :: _ => .error .internalError
  | .bytes c :: rest =>
    if c.isEmpty then .ok (size, written)
    else if maxSize < size + c.length then .error (.fileTooLarge (maxSize / (1024 * 1024)))
    else intakeLoop maxSize (size + c.length) (written ++ c) rest

structure IntakeResult where
  error : Option IntakeError
  size : Nat
  fileCreated : Bool
  finalFileExists : Bool
  fileContent : List Nat
deriving DecidableEq

def upload_file (cfg : IntakeConfig) (filename : List Char) (stream : List StreamEvent) :
    IntakeResult :=
  match validate_file_extension cfg.allowedExtensions filename with
  | some e =>
    { error := some e, size := 0, fileCreated := false, finalFileExists := false,
      fileContent := [] }
  | none =>
    match intakeLoop cfg.maxFileSize 0 [] stream with
    | .error e =>
      { error := some e, size := 0, fileCreated := true, finalFileExists := false,
        fileContent := [] }
    | .ok (size, content) =>
      { error := none, size := size, fileCreated := true, finalFileExists := true,
        fileContent := content }

/-- Total number of bytes the stream delivers before the first empty read
or I/O failure (the running byte count of the intake loop is bounded by
this, and reaches it unless the size ceiling aborts the loop first). -/
def deliveredBytes : List StreamEvent → Nat
  | [] => 0
  | .ioError :: _ => 0
  | .bytes c :: rest => if c.isEmpty then 0 else c.length + deliveredBytes rest

/-! ### Pipeline Orchestrator

`process_file` in `server/services/upload_processor.py`, from the point
where the text has been extracted:

```python
if not text or not text.strip():
    return {"status": "no_text_extracted", "chunks": 0}
chunks = _chunk_text(text, chunk_size=int(chunk_size), overlap=int(overlap))
embedding_gen = FileEmbeddingGenerator()
embeddings = embedding_gen.embed_documents(chunks)
pg_store = PGVectorStore()
pg_store.store_embeddings(chunks, embeddings)
return {"status": "processed", "chunks": len(chunks)}
```

`not text or not text.strip()` holds exactly when every character of the
text is whitespace (vacuously for the empty text); `isPythonSpace` holds
of exactly the code points `str.strip()` strips (`Py_UNICODE_ISSPACE`):
the ASCII whitespace and separator controls U+0009-U+000D, U+001C-U+001F
and U+0020, next line U+0085, no-break space U+00A0, and the Unicode
space separators U+1680, U+2000-U+200A, U+2028, U+2029, U+202F, U+205F
and U+3000.  The external
embedding capability is a parameter `embedder` (one vector per chunk, in
chunk order).  `result = none` models a run that returns no summary dict:
the chunker raising/not terminating, or `store_embeddings` raising (the
raised store error is then recorded in `storeFailure`; the code logs and
re-raises it).  The `*Invoked` flags record which pipeline stages were
entered.
-/

/-- The code points for which Python's `str.isspace()` holds and which
`str.strip()` therefore removes. -/
def pythonWhitespace : List Nat :=
  [0x09, 0x0A, 0x0B, 0x0C, 0x0D, 0x1C, 0x1D, 0x1E, 0x1F, 0x20,
   0x85, 0xA0, 0x1680, 0x2000, 0x2001, 0x2002, 0x2003, 0x2004, 0x2005,
   0x2006, 0x2007, 0x2008, 0x2009, 0x200A, 0x2028, 0x2029, 0x202F, 0x205F,
   0x3000]

def isPythonSpace (c : Char) : Bool :=
  pythonWhitespace.contains c.toNat

inductive ProcessResult where
  | noTextExtracted
  | processed (chunks : Nat)
deriving DecidableEq

structure ProcessOutcome where
  result : Option ProcessResult
  storeFailure : Option StoreError
  chunkerInvoked : Bool
  embedInvoked : Bool
  storeInvoked : Bool
deriving DecidableEq

def process_file {α : Type} (embedder : List (List Char) → List (List α))
    (text : List Char) (size overlap : Nat) : ProcessOutcome :=
  if text.all isPythonSpace then
    { result := some .noTextExtracted, storeFailure := none,
      chunkerInvoked := false, embedInvoked := false, storeInvoked := false }
  else
    match chunk_text text size overlap with
    | none =>
      { result := none, storeFailure := none,
        chunkerInvoked := true, embedInvoked := false, storeInvoked := false }
    | some chunks =>
      match (store_embeddings chunks (embedder chunks)).error with
      | some e =>
        { result := none, storeFailure := some e,
          chunkerInvoked := true, embedInvoked := true, storeInvoked := true }
      | none =>
        { result := some (.processed chunks.length), storeFailure := none,
          chunkerInvoked := true, embedInvoked := true, storeInvoked := true }

/-- A concrete embedding collaborator used to instantiate theorems: every
chunk is mapped to the empty vector (all dimensions agree). -/
def constEmbed (chunks : List (List Char)) : List (List Nat) :=
  chunks.map (fun _ => [])

/-! ### `.doc` extraction: UTF-8 decoding with `errors="ignore"`

`_extract_text_from_doc` delegates to the external `textract` capability
and decodes its byte output:

```python
text = textract.process(file_path)   # bytes
try:
    return text.decode("utf-8", errors="ignore")
except Exception:
    return str(text)
```

`utf8DecodeIgnore` embeds CPython's UTF-8 decoder with the `ignore` error
handler: well-formed sequences decode to their scalar value; an invalid or
truncated sequence contributes nothing to the output — the decoder skips
the maximal valid subpart of the offending sequence and resumes (it never
raises, so the `except` fallback is dead code).  Start bytes `0xC0/0xC1`
and `>= 0xF5` are invalid; `0xE0/0xED` and `0xF0/0xF4` restrict their
first continuation byte so that overlong encodings and surrogates are
rejected, exactly as in CPython.  Bytes are `Nat`s below 256 (a byte
`>= 0x100` cannot occur in `bytes` and is treated like the invalid byte
case).
-/

def isCont (b : Nat) : Bool := 0x80 ≤ b && b < 0xC0

def cont3Ok (b b2 : Nat) : Bool :=
  if b = 0xE0 then 0xA0 ≤ b2 && b2 < 0xC0
  else if b = 0xED then 0x80 ≤ b2 && b2 < 0xA0
  else isCont b2

def cont4Ok (b b2 : Nat) : Bool :=
  if b = 0xF0 then 0x90 ≤ b2 && b2 < 0xC0
  else if b = 0xF4 then 0x80 ≤ b2 && b2 < 0x90
  else isCont b2

def char2 (b b2 : Nat) : Char := Char.ofNat ((b - 0xC0) * 0x40 + (b2 - 0x80))

def char3 (b b2 b3 : Nat) : Char :=
  Char.ofNat ((b - 0xE0) * 0x1000 + (b2 - 0x80) * 0x40 + (b3 - 0x80))

def char4 (b b2 b3 b4 : Nat) : Char :=
  Char.ofNat ((b - 0xF0) * 0x40000 + (b2 - 0x80) * 0x1000 + (b3 - 0x80) * 0x40 + (b4 - 0x80))

def utf8DecodeIgnore : List Nat → List Char
  | [] => []
  | [b] =>
    if b < 0x80 then [Char.ofNat b] else []
  | [b, b2] =>
    if b < 0x80 then Char.ofNat b :: utf8DecodeIgnore [b2]
    else if b < 0xC2 then utf8DecodeIgnore [b2]
    else if b < 0xE0 then
      if isCont b2 then [char2 b b2] else utf8DecodeIgnore [b2]
    else if b < 0xF0 then
      if cont3Ok b b2 then [] else utf8DecodeIgnore [b2]
    else if b < 0xF5 then
      if cont4Ok b b2 then [] else utf8DecodeIgnore [b2]
    else utf8DecodeIgnore [b2]
  | [b, b2, b3] =>
    if b < 0x80 then Char.ofNat b :: utf8DecodeIgnore [b2, b3]
    else if b < 0xC2 then utf8DecodeIgnore [b2, b3]
    else if b < 0xE0 then
      if isCont b2 then char2 b b2 :: utf8DecodeIgnore [b3] else utf8DecodeIgnore [b2, b3]
    else if b < 0xF0 then
      if cont3Ok b b2 then
        if isCont b3 then [char3 b b2 b3] else utf8DecodeIgnore [b3]
      else utf8DecodeIgnore [b2, b3]
    else if b < 0xF5 then
      if cont4Ok b b2 then
        if isCont b3 then [] else utf8DecodeIgnore [b3]
      else utf8DecodeIgnore [b2, b3]
    else utf8DecodeIgnore [b2, b3]
  | b :: b2 :: b3 :: b4 :: rest =>
    if b < 0x80 then Char.ofNat b :: utf8DecodeIgnore (b2 :: b3 :: b4 :: rest)
    else if b < 0xC2 then utf8DecodeIgnore (b2 :: b3 :: b4 :: rest)
    else if b < 0xE0 then
      if isCont b2 then char2 b b2 :: utf8DecodeIgnore (b3 :: b4 :: rest)
      else utf8DecodeIgnore (b2 :: b3 :: b4 :: rest)
    else if b < 0xF0 then
      if cont3Ok b b2 then
        if isCont b3 then char3 b b2 b3 :: utf8DecodeIgnore (b4 :: rest)
        else utf8DecodeIgnore (b3 :: b4 :: rest)
      else utf8DecodeIgnore (b2 :: b3 :: b4 :: rest)
    else if b < 0xF5 then
      if cont4Ok b b2 then
        if isCont b3 then
          if isCont b4 then char4 b b2 b3 b4 :: utf8DecodeIgnore rest
          else utf8DecodeIgnore (b4 :: rest)
        else utf8DecodeIgnore (b3 :: b4 :: rest)
      else utf8DecodeIgnore (b2 :: b3 :: b4 :: rest)
    else utf8DecodeIgnore (b2 :: b3 :: b4 :: rest)

/-- `_extract_text_from_doc`, as a function of the byte string produced by
the legacy-format extraction collaborator (`textract.process`). -/
def extract_text_from_doc (textractOutput : List Nat) : List Char :=
  utf8DecodeIgnore textractOutput

/-- The UTF-8 encoding of a character — the reference notion of a
well-formed byte sequence, used to state what the decoder does on valid
input and around undecodable bytes. -/
def utf8EncodeChar (c : Char) : List Nat :=
  if c.toNat < 0x80 then [c.toNat]
  else if c.toNat < 0x800 then
    [0xC0 + c.toNat / 0x40, 0x80 + c.toNat % 0x40]
  else if c.toNat < 0x10000 then
    [0xE0 + c.toNat / 0x1000, 0x80 + c.toNat / 0x40 % 0x40, 0x80 + c.toNat % 0x40]
  else
    [0xF0 + c.toNat / 0x40000, 0x80 + c.toNat / 0x1000 % 0x40,
     0x80 + c.toNat / 0x40 % 0x40, 0x80 + c.toNat % 0x40]

def utf8Encode (s : List Char) : List Nat :=
  (s.map utf8EncodeChar).flatten

/-- The Unicode replacement character U+FFFD, which the spec says is
substituted for undecodable bytes (`errors="replace"` semantics — not
what the code requests). -/
def replacementChar : Char := Char.ofNat 0xFFFD

/-- Modelled from the spec: `constant/file_constant.py` (which supplies
`ALLOWED_EXTENSIONS` and `MAX_FILE_SIZE`) is not among the sources; the
spec lists the allow-list `{pdf, docx, doc, txt}` and a fixed byte
ceiling.  The intake theorems are parametric in the configuration; this
concrete instance (10 MiB ceiling) only instantiates them. -/
def demoConfig : IntakeConfig :=
  { allowedExtensions := ["pdf".data, "docx".data, "doc".data, "txt".data],
    maxFileSize := 10485760 }

/-- A deliberately tiny configuration (1-byte ceiling) used to exercise
the size-limit behaviour on short concrete streams. -/
def tinyConfig : IntakeConfig :=
  { allowedExtensions := ["txt".data], maxFileSize := 1 }

/-! ## Chunker lemmas -/

theorem chunkLoop_zero (text : List Char) (size overlap start : Nat) :
    chunkLoop text size overlap start 0 = none := rfl

/-- One unfolding step of the loop (stated once so that proofs can unfold
a single iteration at a time). -/
theorem chunkLoop_succ (text : List Char) (size overlap start n : Nat) :
    chunkLoop text size overlap start (n + 1) =
      if start < text.length then
        if min (start + size) text.length = text.length then
          some [(text.drop start).take (min (start + size) text.length - start)]
        else
          match chunkLoop text size overlap (min (start + size) text.length - overlap) n with
          | none => none
          | some cs => some ((text.drop start).take (min (start + size) text.length - start) :: cs)
      else some [] := rfl

/-- When `overlap >= size`, the loop never advances past a state with
`start + size < length`, so it runs forever (no fuel suffices). -/
theorem chunkLoop_stuck (text : List Char) (size overlap : Nat) (ho : size ≤ overlap) :
    ∀ (fuel start : Nat), start + size < text.length →
      chunkLoop text size overlap start fuel = none := by
  intro fuel
  induction fuel with
  | zero => intro start _; rfl
  | succ n ih =>
    intro start h
    have h1 : start < text.length := by omega
    have h2 : min (start + size) text.length = start + size := by omega
    have h3 : ¬ min (start + size) text.length = text.length := by omega
    rw [chunkLoop_succ, if_pos h1, if_neg h3, h2, ih (start + size - overlap) (by omega)]

/-- Fuel monotonicity: a completed run is stable under more fuel. -/
theorem chunkLoop_mono (text : List Char) (size overlap : Nat) :
    ∀ (fuel start : Nat) (cs : List (List Char)),
      chunkLoop text size overlap start fuel = some cs →
      chunkLoop text size overlap start (fuel + 1) = some cs := by
  intro fuel
  induction fuel with
  | zero => intro start cs h; exact absurd h (by simp [chunkLoop_zero])
  | succ n ih =>
    intro start cs h
    rw [chunkLoop_succ] at h ⊢
    by_cases h1 : start < text.length
    · rw [if_pos h1] at h ⊢
      by_cases h2 : min (start + size) text.length = text.length
      · rw [if_pos h2] at h ⊢
        exact h
      · rw [if_neg h2] at h ⊢
        cases hrec : chunkLoop text size overlap (min (start + size) text.length - overlap) n with
        | none => rw [hrec] at h; simp at h
        | some cs' =>
          rw [hrec] at h
          rw [ih _ _ hrec]
          exact h
    · rw [if_neg h1] at h ⊢
      exact h

theorem chunkLoop_ge (text : List Char) (size overlap : Nat) (start : Nat)
    (cs : List (List Char)) (fuel fuel' : Nat) (hle : fuel ≤ fuel')
    (h : chunkLoop text size overlap start fuel = some cs) :
    chunkLoop text size overlap start fuel' = some cs := by
  induction fuel', hle using Nat.le_induction with
  | base => exact h
  | succ m _ ih => exact chunkLoop_mono text size overlap m start cs ih

/-- Loop invariant for the terminating regime `overlap < size`: from any
in-range `start` with enough fuel, the loop returns a non-empty chunk
list whose reassembly is the text from `start` on, and whose head chunk
has the expected length. -/
theorem chunkLoop_spec (text : List Char) (size overlap : Nat)
    (ho : overlap < size) :
    ∀ (fuel start : Nat), start < text.length → text.length - start < fuel →
      ∃ c cs, chunkLoop text size overlap start fuel = some (c :: cs) ∧
        c ++ (cs.map (List.drop overlap)).flatten = text.drop start ∧
        c.length = min size (text.length - start) := by
  intro fuel
  induction fuel with
  | zero => intro start _ h2; omega
  | succ n ih =>
    intro start h1 h2
    by_cases hend : min (start + size) text.length = text.length
    · refine ⟨(text.drop start).take (min (start + size) text.length - start), [], ?_, ?_, ?_⟩
      · rw [chunkLoop_succ, if_pos h1, if_pos hend]
      · have hms : min (start + size) text.length - start = text.length - start := by omega
        have hdl : (text.drop start).length = text.length - start := List.length_drop ..
        rw [hms, ← hdl, List.take_length]
        simp
      · rw [List.length_take, List.length_drop]
        omega
    · have he : min (start + size) text.length = start + size := by omega
      have hlt : start + size < text.length := by omega
      obtain ⟨c', cs', hrec, hjoin, hclen⟩ :=
        ih (start + size - overlap) (by omega) (by omega)
      refine ⟨(text.drop start).take (min (start + size) text.length - start), c' :: cs', ?_, ?_, ?_⟩
      · have hrec' : chunkLoop text size overlap (min (start + size) text.length - overlap) n =
            some (c' :: cs') := by rw [he]; exact hrec
        rw [chunkLoop_succ, if_pos h1, if_neg hend, hrec']
      · have hc'len : overlap ≤ c'.length := by
          rw [hclen]; omega
        have hdropped : c'.drop overlap ++ (cs'.map (List.drop overlap)).flatten =
            text.drop (start + size) := by
          have := congrArg (List.drop overlap) hjoin
          rwa [List.drop_append_eq_append_drop, Nat.sub_eq_zero_of_le hc'len,
            List.drop_zero, List.drop_drop,
            show start + size - overlap + overlap = start + size by omega] at this
        rw [he, Nat.add_sub_cancel_left]
        have hmapcons : (((c' :: cs').map (List.drop overlap)).flatten) =
            c'.drop overlap ++ (cs'.map (List.drop overlap)).flatten := by simp
        rw [hmapcons, hdropped, show text.drop (start + size) = (text.drop start).drop size by
          rw [List.drop_drop]]
        exact List.take_append_drop size (text.drop start)
      · rw [List.length_take, List.length_drop]
        omega

/-- Full behaviour of `chunk_text` in the cases in which the Python loop
terminates (`overlap < size`, or the whole text fits in one chunk):
a chunk list is returned, reassembling it restores the text, it is
non-empty for non-empty text, and any sufficient fuel gives the same
result (so the canonical fuel used by `chunk_text` is harmless). -/
theorem chunk_text_spec (text : List Char) (size overlap : Nat)
    (hs : 0 < size) (h : overlap < size ∨ text.length ≤ size) :
    ∃ cs, chunk_text text size overlap = some cs ∧
      reassemble overlap cs = text ∧
      (text ≠ [] → cs ≠ []) ∧
      ∀ fuel, text.length < fuel → chunkLoop text size overlap 0 fuel = some cs := by
  have hsz : ¬ size = 0 := by omega
  by_cases hnil : text = []
  · subst hnil
    refine ⟨[], ?_, rfl, by simp, ?_⟩
    · simp [chunk_text, hsz, chunkLoop_succ]
    · intro fuel hf
      match fuel, hf with
      | n + 1, _ => simp [chunkLoop_succ]
  · have hpos : 0 < text.length := List.length_pos.mpr hnil
    have key : ∃ cs, chunkLoop text size overlap 0 (text.length + 1) = some cs ∧
        reassemble overlap cs = text ∧ cs ≠ [] := by
      rcases h with ho | hle
      · obtain ⟨c, cs, hloop, hjoin, _⟩ := chunkLoop_spec text size overlap ho
          (text.length + 1) 0 hpos (by omega)
        exact ⟨c :: cs, hloop, by simpa [reassemble] using hjoin, by simp⟩
      · refine ⟨[text], ?_, by simp [reassemble], by simp⟩
        have hmin : min (0 + size) text.length = text.length := by omega
        rw [chunkLoop_succ, if_pos hpos, hmin, if_pos rfl, Nat.sub_zero,
          List.drop_zero, List.take_length]
    obtain ⟨cs, hloop, hre, hne⟩ := key
    refine ⟨cs, ?_, hre, fun _ => hne, ?_⟩
    · simp [chunk_text, hsz, hloop]
    · intro fuel hf
      exact chunkLoop_ge text size overlap 0 cs (text.length + 1) fuel (by omega) hloop

/-! ## Chunker claims -/

/-- **C1** (corrected).  For every text and `size > 0`, *provided the
chunker terminates* — `overlap < size`, or the text fits in a single
chunk — concatenating the returned chunks after removing from each chunk
other than the first its leading `overlap` characters reconstructs the
input text exactly.  The unrestricted claim (`any overlap >= 0`) fails:
see `chunker_roundtrip_cx` and `chunkLoop_stuck`. -/
theorem chunker_roundtrip (text : List Char) (size overlap : Nat)
    (hs : 0 < size) (h : overlap < size ∨ text.length ≤ size) :
    (chunk_text text size overlap).isSome = true ∧
    reassemble overlap ((chunk_text text size overlap).getD []) = text := by
  obtain ⟨cs, hsome, hre, -, -⟩ := chunk_text_spec text size overlap hs h
  rw [hsome]
  exact ⟨rfl, hre⟩

theorem chunker_roundtrip_witness :
    (chunk_text "hello".data 3 1).isSome = true ∧
    reassemble 1 ((chunk_text "hello".data 3 1).getD []) = "hello".data :=
  chunker_roundtrip "hello".data 3 1 (by decide) (Or.inl (by decide))

/-- **C1** counterexample: at `text = "ab"`, `size = 1`, `overlap = 1`
(an instance of `size > 0`, `overlap >= 0`) the chunker returns no chunk
list at all — the Python loop re-enters the state `start = 0` forever,
and correspondingly the embedding yields `none` (`chunkLoop_stuck` shows
no fuel bound suffices) — so no chunk concatenation can reconstruct the
text. -/
theorem chunker_roundtrip_cx : chunk_text "ab".data 1 1 = none := by decide

/-- **C2** (corrected).  The chunker is *not* total for every
`overlap >= 0`: it terminates — with a stable, fuel-independent result,
non-empty for non-empty text — when `overlap < size` or the text fits in
one chunk, and loops forever otherwise (see `chunker_terminates_cx`). -/
theorem chunker_terminates (text : List Char) (size overlap fuel : Nat)
    (hs : 0 < size) (h : overlap < size ∨ text.length ≤ size)
    (hf : text.length < fuel) :
    (chunk_text text size overlap).isSome = true ∧
    chunkLoop text size overlap 0 fuel = chunk_text text size overlap ∧
    (text ≠ [] → chunk_text text size overlap ≠ some []) := by
  obtain ⟨cs, hsome, -, hne, hstable⟩ := chunk_text_spec text size overlap hs h
  refine ⟨by rw [hsome]; rfl, ?_, ?_⟩
  · rw [hsome, hstable fuel hf]
  · intro hn
    rw [hsome]
    simp [hne hn]

theorem chunker_terminates_witness :
    (chunk_text "ab".data 2 1).isSome = true ∧
    chunkLoop "ab".data 2 1 0 7 = chunk_text "ab".data 2 1 ∧
    ("ab".data ≠ [] → chunk_text "ab".data 2 1 ≠ some []) :=
  chunker_terminates "ab".data 2 1 7 (by decide) (Or.inl (by decide)) (by decide)

/-- **C2** counterexample: with `text = "abc"`, `size = 1`,
`overlap = 2` the loop never terminates: even a fuel bound of 1000000
steps is exhausted (by `chunkLoop_stuck` no bound suffices), and the
chunker produces no finite chunk sequence. -/
theorem chunker_terminates_cx :
    chunk_text "abc".data 1 2 = none ∧ chunkLoop "abc".data 1 2 0 1000000 = none :=
  ⟨by decide, chunkLoop_stuck "abc".data 1 2 (by decide) 1000000 0 (by decide)⟩

/-- **C3** (corrected).  For every *non-empty* text with
`len(text) <= size` (and `size > 0`), the chunker returns exactly one
chunk, equal to the whole input text.  For the empty text the code
returns an empty chunk list, not a single empty chunk: see
`chunker_single_chunk_cx`. -/
theorem chunker_single_chunk (text : List Char) (size overlap : Nat)
    (hne : text ≠ []) (hs : 0 < size) (hlen : text.length ≤ size) :
    chunk_text text size overlap = some [text] := by
  have hpos : 0 < text.length := List.length_pos.mpr hne
  have hmin : min (0 + size) text.length = text.length := by omega
  have hsz : ¬ size = 0 := by omega
  simp only [chunk_text, if_neg hsz]
  rw [chunkLoop_succ, if_pos hpos, hmin, if_pos rfl, Nat.sub_zero,
    List.drop_zero, List.take_length]

theorem chunker_single_chunk_witness :
    chunk_text "hi".data 5 3 = some ["hi".data] :=
  chunker_single_chunk "hi".data 5 3 (by decide) (by decide) (by decide)

/-- **C3** counterexample: the empty text has `len(text) = 0 <= size`,
but `_chunk_text("", 5, 0)` returns `[]` — zero chunks, not one chunk
equal to the (empty) input text. -/
theorem chunker_single_chunk_cx :
    chunk_text [] 5 0 = some [] ∧ chunk_text [] 5 0 ≠ some [([] : List Char)] := by
  constructor <;> decide

/-! ## Vector Store Writer lemmas -/

theorem storeLoop_nil {α : Type} (expected : Option Nat) (i : Nat) :
    storeLoop (α := α) expected i [] = .ok [] := rfl

theorem storeLoop_cons {α : Type} (expected : Option Nat) (i : Nat) (chunk : List Char)
    (emb : List α) (rest : List (List Char × List α)) :
    storeLoop expected i ((chunk, emb) :: rest) =
      if emb.length ≠ expected.getD emb.length then
        .error (.dimensionMismatch i (expected.getD emb.length) emb.length)
      else
        match storeLoop (some (expected.getD emb.length)) (i + 1) rest with
        | .error e => .error e
        | .ok docs => .ok (⟨chunk, emb, i⟩ :: docs) := rfl

/-- Once the expected dimension is `d`, the loop raises at the first pair
whose embedding length differs from `d`, reporting its index and both
lengths. -/
theorem storeLoop_mismatch {α : Type} (d : Nat) (bad : List α) (hbad : bad.length ≠ d) :
    ∀ (mid : List (List α)) (ctail : List (List Char)) (i : Nat) (rest : List (List α)),
      mid.length < ctail.length → (∀ e ∈ mid, e.length = d) →
      storeLoop (some d) i (ctail.zip (mid ++ bad :: rest)) =
        .error (.dimensionMismatch (i + mid.length) d bad.length) := by
  intro mid
  induction mid with
  | nil =>
    intro ctail i rest hlen hmid
    match ctail, hlen with
    | c :: ctail', _ =>
      rw [List.nil_append, List.zip_cons_cons, storeLoop_cons]
      simp only [Option.getD_some]
      rw [if_pos hbad]
      simp
  | cons e mid' ih =>
    intro ctail i rest hlen hmid
    match ctail, hlen with
    | c :: ctail', hlen =>
      have he : e.length = d := hmid e (by simp)
      have hrec := ih ctail' (i + 1) rest (by simp at hlen ⊢; omega)
        (fun x hx => hmid x (by simp [hx]))
      rw [List.cons_append, List.zip_cons_cons, storeLoop_cons]
      simp only [Option.getD_some]
      rw [if_neg (by simp [he]), hrec]
      have hidx : i + 1 + mid'.length = i + (e :: mid').length := by simp; omega
      rw [hidx]

/-- When every embedding has the same length, the loop accepts the whole
pair list and produces one document per pair. -/
theorem storeLoop_ok {α : Type} (d : Nat) :
    ∀ (pairs : List (List Char × List α)) (expected : Option Nat) (i : Nat),
      (∀ p ∈ pairs, (Prod.snd p).length = d) → (expected = none ∨ expected = some d) →
      ∃ docs, storeLoop expected i pairs = .ok docs ∧ docs.length = pairs.length := by
  intro pairs
  induction pairs with
  | nil => intro expected i _ _; exact ⟨[], rfl, rfl⟩
  | cons p rest ih =>
    intro expected i hall hexp
    obtain ⟨chunk, emb⟩ := p
    have hd : emb.length = d := hall (chunk, emb) (by simp)
    have hgetd : expected.getD emb.length = d := by
      rcases hexp with h | h <;> simp [h, hd]
    obtain ⟨docs, hdocs, hlen⟩ := ih (some d) (i + 1)
      (fun q hq => hall q (by simp [hq])) (Or.inr rfl)
    refine ⟨⟨chunk, emb, i⟩ :: docs, ?_, by simp [hlen]⟩
    rw [storeLoop_cons, hgetd, if_neg (by simp [hd]), hdocs]

/-- Truncating both lists at the length of the shorter changes nothing
about their zip. -/
theorem zip_take_min {α β : Type} :
    ∀ (l1 : List α) (l2 : List β),
      (l1.take (min l1.length l2.length)).zip (l2.take (min l1.length l2.length)) =
        l1.zip l2 := by
  intro l1
  induction l1 with
  | nil => intro l2; simp
  | cons a as ih =>
    intro l2
    cases l2 with
    | nil => simp
    | cons b bs =>
      simp only [List.length_cons, Nat.succ_min_succ, List.take_succ_cons,
        List.zip_cons_cons, ih]

/-! ## Vector Store Writer claims -/

/-- **C4** (confirmed).  For every equal-length batch whose embeddings do
not all share the first embedding's length, `store_embeddings` raises a
dimension-mismatch error naming the first offending index (written here
as `mid.length + 1`, where `mid` is the run of well-dimensioned
embeddings between the first one and the offender) together with the
expected and actual lengths — and the batch write to the vector store is
never invoked. -/
theorem store_dimension_mismatch {α : Type} (chunks : List (List Char))
    (embeddings : List (List α)) (e0 bad : List α) (mid rest : List (List α))
    (hembs : embeddings = e0 :: (mid ++ bad :: rest))
    (hlen : chunks.length = embeddings.length)
    (hmid : ∀ e ∈ mid, e.length = e0.length)
    (hbad : bad.length ≠ e0.length) :
    store_embeddings chunks embeddings =
      { error := some (.dimensionMismatch (mid.length + 1) e0.length bad.length),
        writeInvoked := false, storedCount := 0 } := by
  subst hembs
  cases chunks with
  | nil => simp at hlen
  | cons c0 ctail =>
    have hrec := storeLoop_mismatch e0.length bad hbad mid ctail 1 rest
      (by simp [List.length_append] at hlen ⊢; omega) hmid
    have hloop : storeLoop none 0 ((c0, e0) :: ctail.zip (mid ++ bad :: rest)) =
        .error (.dimensionMismatch (mid.length + 1) e0.length bad.length) := by
      rw [storeLoop_cons]
      simp only [Option.getD_none]
      rw [if_neg (by simp), hrec]
      rw [show 1 + mid.length = mid.length + 1 by omega]
    simp [store_embeddings, hloop]

theorem store_dimension_mismatch_witness :
    store_embeddings [['a'], ['b']] [[(1 : Nat)], [2, 3]] =
      { error := some (.dimensionMismatch 1 1 2),
        writeInvoked := false, storedCount := 0 } :=
  store_dimension_mismatch [['a'], ['b']] [[(1 : Nat)], [2, 3]] [1] [2, 3] [] []
    rfl rfl (by simp) (by decide)

/-- **C5** (confirmed).  Called with empty chunk and embedding lists,
`store_embeddings` reports zero stored records and never invokes the
vector store collaborator's batch write (the `if documents:` guard takes
the empty branch). -/
theorem store_empty_batch :
    store_embeddings ([] : List (List Char)) ([] : List (List Nat)) =
      { error := none, writeInvoked := false, storedCount := 0 } := rfl

/-- **C10** (confirmed).  `store_embeddings` never raises any error about
the two lists having unequal lengths: `zip` silently pairs the lists
positionally, so (whenever the embeddings are dimensionally consistent,
so that the only error the code can raise does not fire) the call
succeeds, processes exactly `min(len(chunks), len(embeddings))` pairs,
and behaves identically to a call on the two lists truncated to that
common length — the excess elements of the longer list are ignored. -/
theorem store_unequal_lengths {α : Type} (chunks : List (List Char))
    (embeddings : List (List α)) (d : Nat)
    (hd : ∀ e ∈ embeddings, e.length = d) :
    (store_embeddings chunks embeddings).error = none ∧
    (store_embeddings chunks embeddings).storedCount =
      min chunks.length embeddings.length ∧
    store_embeddings chunks embeddings =
      store_embeddings (chunks.take (min chunks.length embeddings.length))
        (embeddings.take (min chunks.length embeddings.length)) := by
  have hall : ∀ p ∈ chunks.zip embeddings, (Prod.snd p).length = d := by
    intro p hp
    obtain ⟨a, b⟩ := p
    exact hd b (List.of_mem_zip hp).2
  obtain ⟨docs, hdocs, hlen⟩ := storeLoop_ok d (chunks.zip embeddings) none 0 hall (Or.inl rfl)
  have hmin : docs.length = min chunks.length embeddings.length := by
    rw [hlen, List.length_zip]
  refine ⟨?_, ?_, ?_⟩
  · by_cases hde : docs.isEmpty <;> simp [store_embeddings, hdocs, hde]
  · by_cases hde : docs.isEmpty
    · have h0 : docs = [] := List.isEmpty_iff.mp hde
      simp [store_embeddings, hdocs, hde, ← hmin, h0]
    · simp [store_embeddings, hdocs, hde, ← hmin]
  · simp only [store_embeddings, zip_take_min]

theorem store_unequal_lengths_witness :
    (store_embeddings [['a']] [[(1 : Nat)], [2]]).error = none ∧
    (store_embeddings [['a']] [[(1 : Nat)], [2]]).storedCount =
      min [['a']].length [[(1 : Nat)], [2]].length ∧
    store_embeddings [['a']] [[(1 : Nat)], [2]] =
      store_embeddings ([['a']].take (min [['a']].length [[(1 : Nat)], [2]].length))
        ([[(1 : Nat)], [2]].take (min [['a']].length [[(1 : Nat)], [2]].length)) :=
  store_unequal_lengths [['a']] [[(1 : Nat)], [2]] 1 (by decide)

/-! ## Stream Intake Guard lemmas -/

/-- If the stream delivers more bytes than the remaining budget before
its first empty read or I/O failure, the intake loop aborts with the
file-too-large error (reporting the configured maximum in MiB). -/
theorem intakeLoop_overflow (maxSize : Nat) :
    ∀ (stream : List StreamEvent) (size : Nat) (written : List Nat),
      size ≤ maxSize → maxSize < size + deliveredBytes stream →
      intakeLoop maxSize size written stream =
        .error (.fileTooLarge (maxSize / (1024 * 1024))) := by
  intro stream
  induction stream with
  | nil => intro size written h1 h2; simp [deliveredBytes] at h2; omega
  | cons ev rest ih =>
    intro size written h1 h2
    cases ev with
    | ioError => simp [deliveredBytes] at h2; omega
    | bytes c =>
      by_cases hc : c.isEmpty
      · simp [deliveredBytes, hc] at h2; omega
      · simp only [deliveredBytes, if_neg hc] at h2
        by_cases hover : maxSize < size + c.length
        · simp [intakeLoop, hc, hover]
        · simp only [intakeLoop, if_neg hc, if_neg hover]
          exact ih (size + c.length) (written ++ c) (by omega) (by omega)

/-- Every error exit of the intake handler leaves no file at the
destination path: extension rejection never creates the file, and both
the size-ceiling and the unexpected-I/O-failure handlers delete the
partially written file before re-raising. -/
theorem upload_file_error_no_file (cfg : IntakeConfig) (filename : List Char)
    (stream : List StreamEvent) (e : IntakeError)
    (h : (upload_file cfg filename stream).error = some e) :
    (upload_file cfg filename stream).finalFileExists = false := by
  cases hv : validate_file_extension cfg.allowedExtensions filename with
  | some e0 => simp [upload_file, hv]
  | none =>
    cases hl : intakeLoop cfg.maxFileSize 0 [] stream with
    | error e0 => simp [upload_file, hv, hl]
    | ok v =>
      obtain ⟨sz, content⟩ := v
      simp [upload_file, hv, hl] at h

/-! ## Stream Intake Guard claims -/

/-- **C6** (confirmed).  Whenever the uploaded filename's extension —
the suffix after the last dot, lowercased for the case-insensitive
comparison — is not in the allow-list, the intake handler fails with an
invalid-file-type error citing the allowed set, and this happens before
any byte of the stream is consumed or written: the destination file is
never created, regardless of the stream's content. -/
theorem intake_invalid_extension (cfg : IntakeConfig) (filename : List Char)
    (stream : List StreamEvent)
    (h : lowerExt filename ∉ cfg.allowedExtensions) :
    upload_file cfg filename stream =
      { error := some (.invalidFileType (lowerExt filename) cfg.allowedExtensions),
        size := 0, fileCreated := false, finalFileExists := false, fileContent := [] } := by
  simp [upload_file, validate_file_extension, h]

theorem intake_invalid_extension_witness :
    upload_file demoConfig "evil.exe".data [.bytes [1, 2, 3]] =
      { error := some (.invalidFileType (lowerExt "evil.exe".data)
          demoConfig.allowedExtensions),
        size := 0, fileCreated := false, finalFileExists := false, fileContent := [] } :=
  intake_invalid_extension demoConfig "evil.exe".data [.bytes [1, 2, 3]] (by decide)

/-- **C7** (confirmed).  Whatever the inputs, an intake call that fails
leaves no file at the destination path; and whenever the stream delivers
more than `MAX_FILE_SIZE` bytes (so the accumulated running count exceeds
the ceiling at some point) on an upload that passed the extension check,
the handler aborts with the file-too-large error reporting the configured
maximum, the partially written destination file having been deleted. -/
theorem intake_too_large (cfg : IntakeConfig) (filename : List Char)
    (stream : List StreamEvent) :
    ((upload_file cfg filename stream).error.isSome = true →
      (upload_file cfg filename stream).finalFileExists = false) ∧
    (lowerExt filename ∈ cfg.allowedExtensions →
      cfg.maxFileSize < deliveredBytes stream →
      (upload_file cfg filename stream).error =
        some (.fileTooLarge (cfg.maxFileSize / (1024 * 1024))) ∧
      (upload_file cfg filename stream).finalFileExists = false) := by
  constructor
  · intro herr
    cases he : (upload_file cfg filename stream).error with
    | none => rw [he] at herr; simp at herr
    | some e => exact upload_file_error_no_file cfg filename stream e he
  · intro hext hover
    have hval : validate_file_extension cfg.allowedExtensions filename = none := by
      simp [validate_file_extension, hext]
    have hloop := intakeLoop_overflow cfg.maxFileSize stream 0 [] (Nat.zero_le _) (by omega)
    constructor <;> simp [upload_file, hval, hloop]

theorem intake_too_large_witness :
    (upload_file tinyConfig "a.txt".data [.bytes [7, 7]]).error =
      some (.fileTooLarge (tinyConfig.maxFileSize / (1024 * 1024))) ∧
    (upload_file tinyConfig "a.txt".data [.bytes [7, 7]]).finalFileExists = false :=
  (intake_too_large tinyConfig "a.txt".data [.bytes [7, 7]]).2 (by decide) (by decide)

/-! ## Pipeline Orchestrator claim -/

/-- **C8** (confirmed).  A pipeline run whose extracted text is empty or
all-whitespace reports `{status: no_text_extracted, chunks: 0}` without
invoking the Chunker, the Embedding Generator or the Vector Store Writer;
otherwise, when the run succeeds (the chunker returns `cs` and the store
raises nothing), it reports `{status: processed, chunks: len(cs)}`, all
three stages having run. -/
theorem orchestrator_empty_text {α : Type} (embedder : List (List Char) → List (List α))
    (text : List Char) (size overlap : Nat) (cs : List (List Char)) :
    (text.all isPythonSpace = true →
      process_file embedder text size overlap =
        { result := some .noTextExtracted, storeFailure := none,
          chunkerInvoked := false, embedInvoked := false, storeInvoked := false }) ∧
    (text.all isPythonSpace = false →
      chunk_text text size overlap = some cs →
      (store_embeddings cs (embedder cs)).error = none →
      process_file embedder text size overlap =
        { result := some (.processed cs.length), storeFailure := none,
          chunkerInvoked := true, embedInvoked := true, storeInvoked := true }) := by
  constructor
  · intro h
    simp [process_file, h]
  · intro h hcs herr
    simp [process_file, h, hcs, herr]

theorem orchestrator_empty_text_witness :
    process_file constEmbed " \t".data 2000 200 =
      { result := some .noTextExtracted, storeFailure := none,
        chunkerInvoked := false, embedInvoked := false, storeInvoked := false } ∧
    process_file constEmbed "hi".data 2000 200 =
      { result := some (.processed 1), storeFailure := none,
        chunkerInvoked := true, embedInvoked := true, storeInvoked := true } :=
  ⟨(orchestrator_empty_text constEmbed " \t".data 2000 200 []).1 (by decide),
   (orchestrator_empty_text constEmbed "hi".data 2000 200 ["hi".data]).2
     (by decide) (by decide) (by decide)⟩

/-! ## UTF-8 decoder lemmas -/

theorem charValidNat (c : Char) :
    c.toNat < 0xD800 ∨ (0xDFFF < c.toNat ∧ c.toNat < 0x110000) := c.valid

/-- An ASCII byte decodes to itself, whatever follows. -/
theorem decode_ascii (b : Nat) (r : List Nat) (h : b < 0x80) :
    utf8DecodeIgnore (b :: r) = Char.ofNat b :: utf8DecodeIgnore r := by
  rcases r with _ | ⟨x, _ | ⟨y, _ | ⟨z, t⟩⟩⟩ <;> simp [utf8DecodeIgnore, h]

/-- A well-formed two-byte sequence decodes to its scalar value, whatever
follows. -/
theorem decode_two (b b2 : Nat) (r : List Nat) (h1 : 0xC2 ≤ b) (h2 : b < 0xE0)
    (h3 : isCont b2 = true) :
    utf8DecodeIgnore (b :: b2 :: r) = char2 b b2 :: utf8DecodeIgnore r := by
  rcases r with _ | ⟨x, _ | ⟨y, t⟩⟩ <;>
    simp [utf8DecodeIgnore, h3, h2, show ¬ b < 0x80 by omega, show ¬ b < 0xC2 by omega]

/-- A well-formed three-byte sequence decodes to its scalar value,
whatever follows. -/
theorem decode_three (b b2 b3 : Nat) (r : List Nat) (h1 : 0xE0 ≤ b) (h2 : b < 0xF0)
    (h3 : cont3Ok b b2 = true) (h4 : isCont b3 = true) :
    utf8DecodeIgnore (b :: b2 :: b3 :: r) = char3 b b2 b3 :: utf8DecodeIgnore r := by
  rcases r with _ | ⟨x, t⟩ <;>
    simp [utf8DecodeIgnore, h3, h4, h2, show ¬ b < 0x80 by omega,
      show ¬ b < 0xC2 by omega, show ¬ b < 0xE0 by omega]

/-- A well-formed four-byte sequence decodes to its scalar value,
whatever follows. -/
theorem decode_four (b b2 b3 b4 : Nat) (r : List Nat) (h1 : 0xF0 ≤ b) (h2 : b < 0xF5)
    (h3 : cont4Ok b b2 = true) (h4 : isCont b3 = true) (h5 : isCont b4 = true) :
    utf8DecodeIgnore (b :: b2 :: b3 :: b4 :: r) = char4 b b2 b3 b4 :: utf8DecodeIgnore r := by
  simp [utf8DecodeIgnore, h3, h4, h5, h2, show ¬ b < 0x80 by omega,
    show ¬ b < 0xC2 by omega, show ¬ b < 0xE0 by omega, show ¬ b < 0xF0 by omega]

/-- A byte that can never start a UTF-8 sequence is simply discarded. -/
theorem decode_skip_invalid (b : Nat) (r : List Nat) (h : 0xF5 ≤ b) :
    utf8DecodeIgnore (b :: r) = utf8DecodeIgnore r := by
  rcases r with _ | ⟨x, _ | ⟨y, _ | ⟨z, t⟩⟩⟩ <;>
    simp [utf8DecodeIgnore, show ¬ b < 0x80 by omega, show ¬ b < 0xC2 by omega,
      show ¬ b < 0xE0 by omega, show ¬ b < 0xF0 by omega, show ¬ b < 0xF5 by omega]

/-- Decoding the UTF-8 encoding of one character recovers that character
and continues with the remainder. -/
theorem decode_encodeChar (c : Char) (r : List Nat) :
    utf8DecodeIgnore (utf8EncodeChar c ++ r) = c :: utf8DecodeIgnore r := by
  have hv := charValidNat c
  by_cases h1 : c.toNat < 0x80
  · rw [utf8EncodeChar, if_pos h1]
    simp only [List.cons_append, List.nil_append]
    rw [decode_ascii _ _ h1, Char.ofNat_toNat]
  · by_cases h2 : c.toNat < 0x800
    · rw [utf8EncodeChar, if_neg h1, if_pos h2]
      simp only [List.cons_append, List.nil_append]
      rw [decode_two _ _ _ (by omega) (by omega)
        (by simp only [isCont, Bool.and_eq_true, decide_eq_true_eq]; omega)]
      simp only [char2]
      rw [show (0xC0 + c.toNat / 0x40 - 0xC0) * 0x40 + (0x80 + c.toNat % 0x40 - 0x80) =
        c.toNat by omega, Char.ofNat_toNat]
    · have hns : c.toNat < 0xD800 ∨ 0xDFFF < c.toNat := by
        rcases hv with h | h
        · exact Or.inl h
        · exact Or.inr h.1
      by_cases h3 : c.toNat < 0x10000
      · obtain ⟨q1, r1, hn1, hr1⟩ : ∃ q r, c.toNat = 0x40 * q + r ∧ r < 0x40 :=
          ⟨_, _, (Nat.div_add_mod _ _).symm, Nat.mod_lt _ (by norm_num)⟩
        obtain ⟨q2, r2, hq2, hr2⟩ : ∃ q r, q1 = 0x40 * q + r ∧ r < 0x40 :=
          ⟨_, _, (Nat.div_add_mod _ _).symm, Nat.mod_lt _ (by norm_num)⟩
        have hc3 : cont3Ok (0xE0 + q2) (0x80 + r2) = true := by
          rw [cont3Ok]
          split_ifs with ha hb <;>
            simp only [isCont, Bool.and_eq_true, decide_eq_true_eq] <;>
            rcases hns with hns | hns <;> omega
        have hb3 : isCont (0x80 + r1) = true := by
          simp only [isCont, Bool.and_eq_true, decide_eq_true_eq]
          omega
        have hval : (0xE0 + q2 - 0xE0) * 0x1000 + (0x80 + r2 - 0x80) * 0x40 +
            (0x80 + r1 - 0x80) = c.toNat := by omega
        have e1 : c.toNat % 0x40 = r1 := by omega
        have e4 : q1 % 0x40 = r2 := by omega
        have e2 : c.toNat / 0x40 = q1 := by omega
        have e3 : c.toNat / 0x1000 = q2 := by omega
        rw [utf8EncodeChar, if_neg h1, if_neg h2, if_pos h3, e1, e2, e3, e4]
        simp only [List.cons_append, List.nil_append]
        rw [decode_three _ _ _ _ (by omega) (by omega) hc3 hb3]
        simp only [char3]
        rw [hval, Char.ofNat_toNat]
      · have h4 : c.toNat < 0x110000 := by
          rcases hv with h | h
          · omega
          · exact h.2
        obtain ⟨q1, r1, hn1, hr1⟩ : ∃ q r, c.toNat = 0x40 * q + r ∧ r < 0x40 :=
          ⟨_, _, (Nat.div_add_mod _ _).symm, Nat.mod_lt _ (by norm_num)⟩
        obtain ⟨q2, r2, hq2, hr2⟩ : ∃ q r, q1 = 0x40 * q + r ∧ r < 0x40 :=
          ⟨_, _, (Nat.div_add_mod _ _).symm, Nat.mod_lt _ (by norm_num)⟩
        obtain ⟨q3, r3, hq3, hr3⟩ : ∃ q r, q2 = 0x40 * q + r ∧ r < 0x40 :=
          ⟨_, _, (Nat.div_add_mod _ _).symm, Nat.mod_lt _ (by norm_num)⟩
        have hc4 : cont4Ok (0xF0 + q3) (0x80 + r3) = true := by
          rw [cont4Ok]
          split_ifs with ha hb <;>
            simp only [isCont, Bool.and_eq_true, decide_eq_true_eq] <;> omega
        have hb3 : isCont (0x80 + r2) = true := by
          simp only [isCont, Bool.and_eq_true, decide_eq_true_eq]
          omega
        have hb4 : isCont (0x80 + r1) = true := by
          simp only [isCont, Bool.and_eq_true, decide_eq_true_eq]
          omega
        have hval : (0xF0 + q3 - 0xF0) * 0x40000 + (0x80 + r3 - 0x80) * 0x1000 +
            (0x80 + r2 - 0x80) * 0x40 + (0x80 + r1 - 0x80) = c.toNat := by omega
        have e1 : c.toNat % 0x40 = r1 := by omega
        have e4 : q1 % 0x40 = r2 := by omega
        have e6 : q2 % 0x40 = r3 := by omega
        have e2 : c.toNat / 0x40 = q1 := by omega
        have e3 : c.toNat / 0x1000 = q2 := by omega
        have e5 : c.toNat / 0x40000 = q3 := by omega
        rw [utf8EncodeChar, if_neg h1, if_neg h2, if_neg h3, e1, e2, e3, e5, e4, e6]
        simp only [List.cons_append, List.nil_append]
        rw [decode_four _ _ _ _ _ (by omega) (by omega) hc4 hb3 hb4]
        simp only [char4]
        rw [hval, Char.ofNat_toNat]

/-- Decoding a well-formed encoded prefix recovers it and continues with
the remainder of the byte string. -/
theorem decode_encode_append (s : List Char) (r : List Nat) :
    utf8DecodeIgnore (utf8Encode s ++ r) = s ++ utf8DecodeIgnore r := by
  induction s with
  | nil => simp [utf8Encode]
  | cons c cs ih =>
    have hflat : utf8Encode (c :: cs) = utf8EncodeChar c ++ utf8Encode cs := by
      simp [utf8Encode]
    rw [hflat, List.append_assoc, decode_encodeChar, ih, List.cons_append]

/-! ## `.doc` extraction claim -/

/-- **C9** (corrected).  `.doc` extraction delegates to the legacy
text-extraction capability and decodes the resulting bytes as UTF-8
without ever raising on invalid bytes — but it *silently discards*
undecodable bytes (`errors="ignore"`), it does not substitute replacement
characters for them: around any invalid byte the decoded text is exactly
the decoding of the well-formed parts, with nothing in between (see
`doc_decode_cx` for the replacement-character refutation). -/
theorem doc_decode_drops_bytes (pre suf : List Char) (b : Nat) (hb : 0xF5 ≤ b) :
    extract_text_from_doc (utf8Encode pre ++ b :: utf8Encode suf) = pre ++ suf := by
  have hsuf : utf8DecodeIgnore (utf8Encode suf) = suf := by
    rw [← List.append_nil (utf8Encode suf), decode_encode_append]
    simp [utf8DecodeIgnore]
  simp only [extract_text_from_doc]
  rw [decode_encode_append, decode_skip_invalid _ _ hb, hsuf]

theorem doc_decode_drops_bytes_witness :
    extract_text_from_doc (utf8Encode "hi".data ++ 0xFF :: utf8Encode "!".data) =
      "hi".data ++ "!".data :=
  doc_decode_drops_bytes "hi".data "!".data 0xFF (by decide)

/-- **C9** counterexample: on the textract output `b"h\xffi"` the decode
step yields `"hi"` — the undecodable byte `0xFF` is dropped, and the
result is *not* `"h�i"` as replacement-character substitution would
produce. -/
theorem doc_decode_cx :
    extract_text_from_doc [0x68, 0xFF, 0x69] = ['h', 'i'] ∧
    extract_text_from_doc [0x68, 0xFF, 0x69] ≠ ['h', replacementChar, 'i'] := by
  constructor <;> decide

end Echolet
